import Mathlib

/-!
Shallow embedding of the `esbuild-dynamic-import` plugin (`src/index.ts`).

Source text is modelled as `List Char`.  JavaScript string/regex operations
used by the plugin are embedded as executable functions on `List Char`:
each regex of the source is implemented as a dedicated scanner that is
faithful to the regex's semantics (leftmost match, greedy/non-greedy as
written, `g`-flag continuation after the match end, `.` not matching
newline).  `String.prototype.replace` with a string pattern replaces the
first occurrence of the pattern; JavaScript `$`-patterns in replacement
strings are not expanded here (none of the replacement strings built by the
plugin use them).  Node `path` functions are modelled in their POSIX form.
The `fast-glob` resolver and the filesystem are external collaborators and
enter as parameters.
-/

namespace DynImp

/-- JavaScript whitespace (the ASCII part), as used by `trim` and `\s`. -/
def jsIsSpace (c : Char) : Bool :=
  c = ' ' || c = '\t' || c = '\n' || c = '\r' || c = '\x0b' || c = '\x0c'

/-- Quote characters of the concatenation-normalization character classes. -/
def isQuote (c : Char) : Bool := c = '"' || c = '\x27'

/-- JavaScript `String.prototype.trim`. -/
def trimChars (cs : List Char) : List Char :=
  ((cs.dropWhile jsIsSpace).reverse.dropWhile jsIsSpace).reverse

/-- Greedy `\s*`. -/
def dropSpaces (cs : List Char) : List Char := cs.dropWhile jsIsSpace

/-- JavaScript `s.replace(pat, repl)` with a string pattern: replace the
first occurrence of `pat` (an empty pattern matches at the start). -/
def replaceFirstAux (pat repl : List Char) : List Char → List Char
  | [] => []
  | c :: cs =>
    if pat.isPrefixOf (c :: cs) then repl ++ (c :: cs).drop pat.length
    else c :: replaceFirstAux pat repl cs

/-- JavaScript first-occurrence string replacement. -/
def replaceFirst (pat repl s : List Char) : List Char :=
  if pat.isEmpty then repl ++ s else replaceFirstAux pat repl s

/-- Driver for a `g`-flag `replaceAll` of one regex: `step` attempts an
anchored match at the current position and returns the replacement text and
the input remaining after the match (every match consumes at least one
character).  Fuel is the input length plus one. -/
def replaceAllAux (step : List Char → Option (List Char × List Char)) :
    Nat → List Char → List Char
  | 0, cs => cs
  | _ + 1, [] => []
  | fuel + 1, c :: cs =>
    match step (c :: cs) with
    | some (repl, rest) => repl ++ replaceAllAux step fuel rest
    | none => c :: replaceAllAux step fuel cs

/-- Run a `g`-flag `replaceAll` over the whole input. -/
def replaceAllWith (step : List Char → Option (List Char × List Char))
    (cs : List Char) : List Char :=
  replaceAllAux step (cs.length + 1) cs

/-- Scan for the end `*/` of a block comment; `.` does not match a newline,
so the comment fails if a newline appears first. -/
def blockEnd : List Char → Option (List Char)
  | [] => none
  | '*' :: '/' :: rest => some rest
  | '\n' :: _ => none
  | _ :: rest => blockEnd rest

/-- Anchored attempt of `\/\*.*?\*\/`. -/
def tryBlockComment : List Char → Option (List Char)
  | '/' :: '*' :: rest => blockEnd rest
  | _ => none

/-- Scan for the newline ending a line comment (the regex requires it). -/
def lineEnd : List Char → Option (List Char)
  | [] => none
  | '\n' :: rest => some rest
  | _ :: rest => lineEnd rest

/-- Anchored attempt of `\/\/.*\n`. -/
def tryLineComment : List Char → Option (List Char)
  | '/' :: '/' :: rest => lineEnd rest
  | _ => none

/-- One step of `replace(/(?:\/\*.*?\*\/)|(?:\/\/.*\n)/g, "")`: try the
block-comment alternative first, then the line comment. -/
def stepComment (cs : List Char) : Option (List Char × List Char) :=
  match tryBlockComment cs with
  | some rest => some ([], rest)
  | none =>
    match tryLineComment cs with
    | some rest => some ([], rest)
    | none => none

/-- Comment stripping applied to a captured import argument (line 50). -/
def stripComments (cs : List Char) : List Char := replaceAllWith stepComment cs

/-- Step of `replaceAll(/(["]\x27 etc. str+var)/g)`: quote, `\s*`, `+`,
`\s*`, then one character that is neither a quote nor whitespace; the
replacement is the interpolation opener followed by that character. -/
def stepStrVar : List Char → Option (List Char × List Char)
  | [] => none
  | c :: cs =>
    if isQuote c then
      match dropSpaces cs with
      | '+' :: cs2 =>
        match dropSpaces cs2 with
        | d :: rest =>
          if !isQuote d && !jsIsSpace d then some (['$', '\x7b', d], rest) else none
        | [] => none
      | _ => none
    else none

/-- Step of the var+str rewrite: non-quote non-space character, `\s*`, `+`,
`\s*`, quote; replaced by the character followed by a closing brace. -/
def stepVarStr : List Char → Option (List Char × List Char)
  | [] => none
  | c :: cs =>
    if !isQuote c && !jsIsSpace c then
      match dropSpaces cs with
      | '+' :: cs2 =>
        match dropSpaces cs2 with
        | d :: rest => if isQuote d then some ([c, '\x7d'], rest) else none
        | [] => none
      | _ => none
    else none

/-- Step of the var+var rewrite. -/
def stepVarVar : List Char → Option (List Char × List Char)
  | [] => none
  | c :: cs =>
    if !isQuote c && !jsIsSpace c then
      match dropSpaces cs with
      | '+' :: cs2 =>
        match dropSpaces cs2 with
        | d :: rest =>
          if !isQuote d && !jsIsSpace d then
            some ([c, '\x7d', '$', '\x7b', d], rest)
          else none
        | [] => none
      | _ => none
    else none

/-- Step of the str+str collapse. -/
def stepStrStr : List Char → Option (List Char × List Char)
  | [] => none
  | c :: cs =>
    if isQuote c then
      match dropSpaces cs with
      | '+' :: cs2 =>
        match dropSpaces cs2 with
        | d :: rest => if isQuote d then some ([], rest) else none
        | [] => none
      | _ => none
    else none

/-- Anchored `replaceAll(/()(^[^"\x27])/g)`: when the first character is not
a quote, open a template literal and an interpolation before it. -/
def beginVar : List Char → List Char
  | [] => []
  | c :: cs => if !isQuote c then '\x60' :: '$' :: '\x7b' :: c :: cs else c :: cs

/-- Anchored begin-string rewrite: a leading quote becomes a backtick. -/
def beginStr : List Char → List Char
  | [] => []
  | c :: cs => if isQuote c then '\x60' :: cs else c :: cs

/-- Anchored end-variable rewrite: a trailing non-quote character gets a
closing brace and backtick appended. -/
def endVar (cs : List Char) : List Char :=
  match cs.getLast? with
  | some c => if !isQuote c then cs ++ ['\x7d', '\x60'] else cs
  | none => cs

/-- Anchored end-string rewrite: a trailing quote becomes a backtick. -/
def endStr (cs : List Char) : List Char :=
  match cs.getLast? with
  | some c => if isQuote c then cs.dropLast ++ ['\x60'] else cs
  | none => cs

/-- The string-concatenation-to-template chain of lines 54-61, in source
order. -/
def concatChain (cs : List Char) : List Char :=
  endStr (endVar (beginStr (beginVar
    (replaceAllWith stepStrStr
      (replaceAllWith stepVarVar
        (replaceAllWith stepVarStr
          (replaceAllWith stepStrVar cs)))))))

/-- Existence of a template interpolation: an opener with a closing brace
somewhere after it. -/
def hasInterp : List Char → Bool
  | '$' :: '\x7b' :: rest => rest.contains '\x7d'
  | _ :: rest => hasInterp rest
  | [] => false

/-- The test `/^.*\$\x7b.*?\x7d.*$/.test(destinationFile)`: every `.` of the
regex excludes newlines and the anchors must span the whole string, so a
string containing a newline never matches. -/
def containsInterpolation (cs : List Char) : Bool :=
  !cs.contains '\n' && hasInterp cs

/-- Scan for the closing brace of a non-greedy `\$\x7b.*?\x7d`. -/
def interpEnd : List Char → Option (List Char)
  | [] => none
  | '\x7d' :: rest => some rest
  | '\n' :: _ => none
  | _ :: rest => interpEnd rest

/-- Step of `replace(/\$\x7b.*?\x7d/g, "**\/*")` deriving a glob pattern. -/
def stepInterp : List Char → Option (List Char × List Char)
  | '$' :: '\x7b' :: rest => (interpEnd rest).map (fun r => (['*', '*', '/', '*'], r))
  | _ => none

/-- Replace every interpolation marker by the recursive wildcard (line 76). -/
def globOfTemplate (cs : List Char) : List Char := replaceAllWith stepInterp cs

/-- POSIX `path.isAbsolute`. -/
def isAbsolute (p : List Char) : Bool := p.head? == some '/'

/-- The part of a path after its last slash. -/
def basenameOf (p : List Char) : List Char :=
  (p.reverse.takeWhile (fun c => c ≠ '/')).reverse

/-- Node POSIX `path.extname`: the suffix of the basename from its last dot,
unless that dot is the leading character or the basename is `..`. -/
def extname (p : List Char) : List Char :=
  let b := basenameOf p
  if b = ['.', '.'] then []
  else
    let rext := b.reverse.takeWhile (fun c => c ≠ '.')
    if rext.length = b.length then []
    else if rext.length + 1 = b.length then []
    else '.' :: rext.reverse

/-- Split a character list on a separator character. -/
def splitOnCharAux (c : Char) (cur : List Char) : List Char → List (List Char)
  | [] => [cur.reverse]
  | d :: ds =>
    if d = c then cur.reverse :: splitOnCharAux c [] ds
    else splitOnCharAux c (d :: cur) ds

/-- Resolve `.` and `..` segments the way Node's normalization does. -/
def normStack (isAbs : Bool) (acc : List (List Char)) :
    List (List Char) → List (List Char)
  | [] => acc.reverse
  | seg :: rest =>
    if seg = [] || seg = ['.'] then normStack isAbs acc rest
    else if seg = ['.', '.'] then
      match acc with
      | top :: acc' =>
        if top = ['.', '.'] then normStack isAbs (seg :: top :: acc') rest
        else normStack isAbs acc' rest
      | [] => if isAbs then normStack isAbs [] rest else normStack isAbs [seg] rest
    else normStack isAbs (seg :: acc) rest

/-- Node POSIX `path.normalize`. -/
def normalize (p : List Char) : List Char :=
  if p = [] then ['.']
  else
    let isAbs := p.head? == some '/'
    let trail := p.getLast? == some '/'
    let segs := normStack isAbs [] (splitOnCharAux '/' [] p)
    let body := List.intercalate ['/'] segs
    let body := if trail && !body.isEmpty then body ++ ['/'] else body
    if isAbs then '/' :: body
    else if body.isEmpty then (if trail then ['.', '/'] else ['.'])
    else body

/-- Node POSIX `path.dirname`. -/
def dirname (p : List Char) : List Char :=
  let rev := p.reverse.dropWhile (fun c => c = '/')
  let rev2 := rev.dropWhile (fun c => c ≠ '/')
  let hasRoot := p.head? == some '/'
  match rev2 with
  | [] => if hasRoot then ['/'] else ['.']
  | _ :: rest =>
    if rest.reverse = [] then (if hasRoot then ['/'] else ['.'])
    else rest.reverse

/-- Normalization of a path against the source file's directory, the
expression `Path.normalize(resolveDir + "/" + p)` of lines 72 and 114. -/
def normRel (resolveDir p : List Char) : List Char :=
  normalize (resolveDir ++ '/' :: p)

/-- A located `import(...)` call span: the full matched text and the raw
argument between the parentheses. -/
structure ImportMatch where
  full : List Char
  arg : List Char
deriving DecidableEq, Repr

/-- The literal scan prefix of the extraction regex. -/
def importKeyword : List Char := ['i', 'm', 'p', 'o', 'r', 't', '(']

/-- Faithful scan of `matchAll(/import\(([^)]+)\)/g)`: find the literal
`import(`, take the maximal nonempty run of non-`)` characters, require the
closing parenthesis, and continue after it; on failure move one character
forward. -/
def scanImportsAux : Nat → List Char → List ImportMatch
  | 0, _ => []
  | _ + 1, [] => []
  | fuel + 1, c :: cs =>
    if importKeyword.isPrefixOf (c :: cs) then
      let rest := (c :: cs).drop importKeyword.length
      let argPart := rest.takeWhile (fun d => d ≠ ')')
      match rest.dropWhile (fun d => d ≠ ')') with
      | ')' :: rest' =>
        if argPart.isEmpty then scanImportsAux fuel cs
        else { full := importKeyword ++ argPart ++ [')'], arg := argPart } ::
          scanImportsAux fuel rest'
      | _ => scanImportsAux fuel cs
    else scanImportsAux fuel cs

/-- All import-call matches of a file, in text order. -/
def scanImports (cs : List Char) : List ImportMatch :=
  scanImportsAux (cs.length + 1) cs

/-- The plugin configuration record.  A missing or non-array
`transformExtensions` is `none`; `changeRelativeToAbsolute` is its
truthiness; `filter` and `loader` are kept as opaque option strings. -/
structure DynamicImportConfig where
  transformExtensions : Option (List (List Char)) := none
  changeRelativeToAbsolute : Bool := false
  filter : Option (List Char) := none
  loader : Option (List Char) := none

/-- The external `fast-glob` collaborator: pattern and base directory to a
promise of relative paths, which either fulfills or rejects. -/
def Resolver := List Char → List Char → Except (List Char) (List (List Char))

/-- A match queued for glob transformation: the full original `import(...)`
text and the quoted destination-path-with-template string (line 75). -/
structure QueuedImport where
  fullImport : List Char
  pathString : List Char
deriving DecidableEq, Repr

/-- State threaded through the per-match classification loop of lines
48-79: the (possibly spliced) file text, the queued imports, and the
derived glob patterns. -/
structure LoopState where
  text : List Char
  queued : List QueuedImport
  globPatterns : List (List Char)
deriving DecidableEq, Repr

/-- Comment stripping, trim, conditional concatenation normalization,
backtick removal and final trim applied to a captured argument
(lines 50-65). -/
def processArg (arg : List Char) : List Char :=
  let d := trimChars (stripComments arg)
  let d := if (trimChars d).head? ≠ some '\x60' then concatChain d else d
  trimChars (d.filter (fun c => c ≠ '\x60'))

/-- The `.js` extension string. -/
def jsExt : List Char := ['.', 'j', 's']

/-- The `.json` extension string. -/
def jsonExt : List Char := ['.', 'j', 's', 'o', 'n']

/-- Membership of the destination's extension in `transformExtensions`
(`Array.isArray` guard included). -/
def extTransformable (config : DynamicImportConfig) (ext : List Char) : Bool :=
  match config.transformExtensions with
  | some exts => exts.contains ext
  | none => false

/-- One iteration of the classification loop (lines 48-78): absolutize in
place, queue for glob transformation, or leave alone. -/
def loopStep (config : DynamicImportConfig) (resolveDir : List Char)
    (st : LoopState) (m : ImportMatch) : LoopState :=
  let destinationFile := processArg m.arg
  let fileExtension := extname destinationFile
  if config.changeRelativeToAbsolute && !isAbsolute destinationFile &&
      fileExtension == jsExt || fileExtension == jsonExt then
    let normalizedPath := normRel resolveDir destinationFile
    { st with text := replaceFirst m.arg ('\x60' :: normalizedPath ++ ['\x60']) st.text }
  else if extTransformable config fileExtension &&
      containsInterpolation destinationFile then
    { st with
      queued := st.queued ++ [{ fullImport := m.full,
                                pathString := '\x60' :: destinationFile ++ ['\x60'] }],
      globPatterns := st.globPatterns ++ [globOfTemplate destinationFile] }
  else st

/-- The classification loop run over all matches of the original text. -/
def loopResult (fileContents resolveDir : List Char)
    (config : DynamicImportConfig) : LoopState :=
  (scanImports fileContents).foldl (loopStep config resolveDir)
    { text := fileContents, queued := [], globPatterns := [] }

/-- The `Promise.all` join of the per-pattern resolutions (line 89): any
rejection rejects the join; otherwise the results are flattened in order. -/
def resolveAll (resolver : Resolver) (resolveDir : List Char) :
    List (List Char) → Except (List Char) (List (List Char))
  | [] => Except.ok []
  | p :: ps =>
    match resolver p resolveDir with
    | Except.error e => Except.error e
    | Except.ok l =>
      match resolveAll resolver resolveDir ps with
      | Except.error e => Except.error e
      | Except.ok ls => Except.ok (l ++ ls)

/-- The test `/(\.js)$/.test(filePath)` of line 96. -/
def endsInJs (p : List Char) : Bool := jsExt.isSuffixOf p

/-- The callback of the `.filter` call at lines 95-100 returns an array in
both branches; in JavaScript every array is truthy, so each element passes
the filter regardless of its extension. -/
def jsFilterKeep (filePath : List Char) : Bool :=
  if endsInJs filePath then true else true

/-- The `replace(/\.js$/, "")` of line 103. -/
def stripJsSuffix (p : List Char) : List Char :=
  if endsInJs p then p.take (p.length - 3) else p

/-- Lines 95-105: concatenate the (vacuously filtered) paths with their
`.js`-stripped forms. -/
def addJsAliases (importFilePaths : List (List Char)) : List (List Char) :=
  importFilePaths ++ (importFilePaths.filter jsFilterKeep).map stripJsSuffix

/-- Lookup in the `uniqueFilePathsMap` association (a JavaScript `Map`). -/
def slotOf : List (List Char × Nat) → List Char → Option Nat
  | [], _ => none
  | (k, v) :: rest, pn => if k = pn then some v else slotOf rest pn

/-- JavaScript `Map.prototype.set`: update an existing key in place, else
append; insertion order is preserved. -/
def mapSet : List (List Char × List Char) → List Char → List Char →
    List (List Char × List Char)
  | [], k, v => [(k, v)]
  | (k', v') :: rest, k, v =>
    if k' = k then (k, v) :: rest else (k', v') :: mapSet rest k v

/-- JavaScript `Map.prototype.get` on the module map. -/
def mapGet : List (List Char × List Char) → List Char → Option (List Char)
  | [], _ => none
  | (k, v) :: rest, k' => if k = k' then some v else mapGet rest k'

/-- The synthetic identifier of a module slot. -/
def moduleIdent (n : Nat) : List Char :=
  ['_', 'D', 'y', 'n', 'a', 'm', 'i', 'c', 'I', 'm', 'p', 'o', 'r', 't',
   'M', 'o', 'd', 'u', 'l', 'e'] ++ (toString n).data

/-- State of the deduplication filter of lines 111-122. -/
structure DedupState where
  uniq : List (List Char × Nat)
  modMap : List (List Char × List Char)
  deduped : List (List Char)
deriving DecidableEq, Repr

/-- One iteration of the deduplication filter: key by the normalized
absolute path, assign a fresh sequential slot on first sight, and point the
module map's entry for this spelling at the slot's identifier. -/
def dedupStep (resolveDir : List Char) (st : DedupState)
    (filePath : List Char) : DedupState :=
  let pathNormalized := normRel resolveDir filePath
  match slotOf st.uniq pathNormalized with
  | some n => { st with modMap := mapSet st.modMap filePath (moduleIdent n) }
  | none =>
    { uniq := st.uniq ++ [(pathNormalized, st.uniq.length)],
      modMap := mapSet st.modMap filePath (moduleIdent st.uniq.length),
      deduped := st.deduped ++ [filePath] }

/-- The deduplication filter over all resolved paths. -/
def dedupAll (resolveDir : List Char) (paths : List (List Char)) : DedupState :=
  paths.foldl (dedupStep resolveDir) { uniq := [], modMap := [], deduped := [] }

/-- The static import statement of slot `i` (line 126). -/
def importStatementFor (i : Nat) (path : List Char) : List Char :=
  "import * as _DynamicImportModule".data ++ (toString i).data ++
    " from \x27".data ++ path ++ "\x27;".data

/-- The `reduce` of lines 124-127 building the static import statements,
newline-separated. -/
def importStatements (deduped : List (List Char)) : List Char :=
  deduped.enum.foldl
    (fun accum ip =>
      (if accum ≠ [] then accum ++ ['\n'] else accum) ++
        importStatementFor ip.1 ip.2) []

/-- One rendered module-map entry including its trailing comma (line 132). -/
def entryChunk (kv : List Char × List Char) : List Char :=
  '\x27' :: kv.1 ++ '\x27' :: ':' :: kv.2 ++ [',']

/-- The `replace` at line 136 closing the object literal: replace the final
character (the trailing comma) when it is not a newline. -/
def replaceLastCharWith (repl s : List Char) : List Char :=
  match s.getLast? with
  | some c => if c ≠ '\n' then s.dropLast ++ repl else s
  | none => s

/-- The rendered `_DynamicImportModuleMap` object literal (lines 129-136). -/
def objectMapString (modMap : List (List Char × List Char)) : List Char :=
  replaceLastCharWith "\x7d;".data
    ("const _DynamicImportModuleMap = \x7b".data ++
      modMap.foldl (fun acc kv => acc ++ entryChunk kv) [])

/-- The synthetic lookup function emitted at line 138. -/
def importFunctionString : List Char :=
  ("function _DynamicImport(path) \x7bconst mod=_DynamicImportModuleMap[path];" ++
   "if(mod) \x7bmod[Symbol.toStringTag]=\x27Module\x27;\x7d" ++
   "return Promise.resolve(mod);\x7d").data

/-- The replacement loop of lines 142-144: each queued original import call
is replaced (first textual occurrence) by a `_DynamicImport` call carrying
the queued path string. -/
def spliceQueued (queued : List QueuedImport) (text : List Char) : List Char :=
  queued.foldl
    (fun t q =>
      replaceFirst q.fullImport ("_DynamicImport(".data ++ q.pathString ++ [')']) t)
    text

/-- The import rewriter `replaceImports` (lines 43-149), parameterized by
the glob resolver. -/
def replaceImports (fileContents resolveDir : List Char)
    (config : DynamicImportConfig) (resolver : Resolver) : List Char :=
  let st := loopResult fileContents resolveDir config
  if st.globPatterns.length > 0 then
    let importFilePaths :=
      match resolveAll resolver resolveDir st.globPatterns with
      | Except.error _ => []
      | Except.ok l => l
    let importFilePaths := addJsAliases importFilePaths
    if importFilePaths.length = 0 then st.text
    else
      let d := dedupAll resolveDir importFilePaths
      let jsStr := importStatements d.deduped ++ '\n' :: objectMapString d.modMap ++
        '\n' :: importFunctionString ++ ['\n']
      jsStr ++ spliceQueued st.queued st.text
  else st.text

/-- What the `catch` of lines 90-92 writes to the error stream: the join's
rejection value when the glob fan-out ran and rejected, nothing otherwise. -/
def replaceImportsLog (fileContents resolveDir : List Char)
    (config : DynamicImportConfig) (resolver : Resolver) : List (List Char) :=
  let st := loopResult fileContents resolveDir config
  if st.globPatterns.length > 0 then
    match resolveAll resolver resolveDir st.globPatterns with
    | Except.error e => [e]
    | Except.ok _ => []
  else []

/-- Number of resolver invocations `replaceImports` makes on a file: one
per queued glob pattern (the `FastGlob` calls of lines 83-85). -/
def numResolverCalls (fileContents resolveDir : List Char)
    (config : DynamicImportConfig) : Nat :=
  (loopResult fileContents resolveDir config).globPatterns.length

/-- The output of the load hook. -/
structure Output where
  contents : List Char
  loader : List Char
deriving DecidableEq, Repr

/-- A cache entry: the raw content last seen for a path and the transformed
output produced from it. -/
structure CacheEntry where
  fileContents : List Char
  output : Output
deriving DecidableEq, Repr

/-- The loader's mutable state: the per-path cache and an instrumentation
counter of glob-resolver invocations. -/
structure LoaderState where
  cache : List (List Char × CacheEntry)
  resolverCalls : Nat
deriving DecidableEq, Repr

/-- `Map.prototype.get` on the cache. -/
def cacheGet : List (List Char × CacheEntry) → List Char → Option CacheEntry
  | [], _ => none
  | (k, v) :: rest, k' => if k = k' then some v else cacheGet rest k'

/-- `Map.prototype.set` on the cache. -/
def cacheSet : List (List Char × CacheEntry) → List Char → CacheEntry →
    List (List Char × CacheEntry)
  | [], k, v => [(k, v)]
  | (k', v') :: rest, k, v =>
    if k' = k then (k, v) :: rest else (k', v') :: cacheSet rest k v

/-- The `onLoad` hook of lines 24-38, with the file's raw content supplied
by the (external) filesystem read: compute the loader tag, consult the
cache, and recompute and overwrite only when the path is unseen or its
content changed. -/
def onLoad (config : DynamicImportConfig) (resolver : Resolver)
    (st : LoaderState) (path fileContents : List Char) : LoaderState × Output :=
  let resolveDir := dirname path
  let fileExtension := extname path
  let loader := if fileExtension = jsonExt then
      ['j', 's', 'o', 'n'] else config.loader.getD ['j', 's']
  match cacheGet st.cache path with
  | some v =>
    if v.fileContents = fileContents then (st, v.output)
    else
      let contents := replaceImports fileContents resolveDir config resolver
      let value : CacheEntry := { fileContents := fileContents,
                                  output := { contents := contents, loader := loader } }
      ({ cache := cacheSet st.cache path value,
         resolverCalls := st.resolverCalls +
           numResolverCalls fileContents resolveDir config }, value.output)
  | none =>
    let contents := replaceImports fileContents resolveDir config resolver
    let value : CacheEntry := { fileContents := fileContents,
                                output := { contents := contents, loader := loader } }
    ({ cache := cacheSet st.cache path value,
       resolverCalls := st.resolverCalls +
         numResolverCalls fileContents resolveDir config }, value.output)

/-- The plugin value produced by a successful construction; the load hook's
filter is recorded as registered. -/
structure Plugin where
  name : List Char
  onLoadFilter : List Char
deriving DecidableEq, Repr

/-- The default filter regular expression, kept as its source text. -/
def defaultFilter : List Char := "\\.(js|json)$".data

/-- The plugin factory (lines 13-19): validate the configuration before
building the plugin; a violation is a synchronous error and no hook is
registered. -/
def mkPlugin (config : DynamicImportConfig) : Except (List Char) Plugin :=
  if config.transformExtensions.isNone && !config.changeRelativeToAbsolute then
    Except.error ("Either transformExtensions needs to be supplied or " ++
      "changeRelativeToAbsolute needs to be true").data
  else
    Except.ok { name := "rtvision:dynamic-import".data,
                onLoadFilter := config.filter.getD defaultFilter }

/-- Whether a construction attempt succeeded. -/
def constructionOk (r : Except (List Char) Plugin) : Bool :=
  match r with
  | Except.ok _ => true
  | Except.error _ => false

/-- The list of rendered static import statements, slot by slot. -/
def statementList (deduped : List (List Char)) : List (List Char) :=
  deduped.enum.map (fun ip => importStatementFor ip.1 ip.2)

/-- Newline-joined rendering of a nonempty list of lines. -/
def joinLines : List (List Char) → List Char
  | [] => []
  | x :: xs => x ++ (xs.map (fun y => '\n' :: y)).flatten

/-- Sequential slot numbering of a list of normalized paths, starting at
`k`. -/
def slotsFrom (k : Nat) : List (List Char) → List (List Char × Nat)
  | [] => []
  | p :: ps => (p, k) :: slotsFrom (k + 1) ps

/-- Invariant of the deduplication fold: the slot table numbers the
deduplicated spellings' normalized paths sequentially in first-seen order,
those normalized paths are pairwise distinct, they are exactly the
normalized paths of the spellings seen so far, and every seen spelling is
mapped to the identifier of its normalized path's slot. -/
def Inv (dir : List Char) (seen : List (List Char)) (st : DedupState) : Prop :=
  st.uniq = slotsFrom 0 (st.deduped.map (normRel dir)) ∧
  (st.deduped.map (normRel dir)).Nodup ∧
  (∀ N, N ∈ st.deduped.map (normRel dir) ↔ N ∈ seen.map (normRel dir)) ∧
  (∀ p ∈ seen, ∃ n, slotOf st.uniq (normRel dir p) = some n ∧
    mapGet st.modMap p = some (moduleIdent n))

/-- Configuration supplying only `transformExtensions := ['.js']`. -/
def cfgTransform : DynamicImportConfig := { transformExtensions := some [jsExt] }

/-- Configuration supplying only `changeRelativeToAbsolute := true`. -/
def cfgAbsolute : DynamicImportConfig := { changeRelativeToAbsolute := true }

/-- A resolver fulfilling with no matches for every pattern. -/
def resolverNone : Resolver := fun _ _ => Except.ok []

/-- A resolver rejecting every pattern. -/
def resolverReject : Resolver := fun _ _ => Except.error "glob failure".data

/-- A resolver fulfilling with the two modules of the specification's
worked example. -/
def resolverAB : Resolver := fun _ _ =>
  Except.ok ["mod-a.js".data, "mod-b.js".data]

/-- A resolver fulfilling with a single module. -/
def resolverA : Resolver := fun _ _ => Except.ok ["m-a.js".data]

/-- The interpolated-template import of the specification's worked
example. -/
def exampleText : List Char := "import(\x60./mod-$\x7bx\x7d.js\x60)".data

lemma mapGet_mapSet (m : List (List Char × List Char)) (k v k' : List Char) :
    mapGet (mapSet m k v) k' = if k = k' then some v else mapGet m k' := by
  induction m with
  | nil => by_cases h : k = k' <;> simp [mapSet, mapGet, h]
  | cons kv m ih =>
    rcases kv with ⟨a, b⟩
    by_cases h1 : a = k <;> by_cases h2 : k = k' <;>
      simp_all [mapSet, mapGet]

lemma cacheGet_cacheSet (m : List (List Char × CacheEntry)) (k : List Char)
    (v : CacheEntry) (k' : List Char) :
    cacheGet (cacheSet m k v) k' = if k = k' then some v else cacheGet m k' := by
  induction m with
  | nil => by_cases h : k = k' <;> simp [cacheSet, cacheGet, h]
  | cons kv m ih =>
    rcases kv with ⟨a, b⟩
    by_cases h1 : a = k <;> by_cases h2 : k = k' <;>
      simp_all [cacheSet, cacheGet]

lemma slotsFrom_length (k : Nat) (l : List (List Char)) :
    (slotsFrom k l).length = l.length := by
  induction l generalizing k with
  | nil => rfl
  | cons p ps ih => simp [slotsFrom, ih]

lemma slotsFrom_append (k : Nat) (l : List (List Char)) (N : List Char) :
    slotsFrom k (l ++ [N]) = slotsFrom k l ++ [(N, k + l.length)] := by
  induction l generalizing k with
  | nil => simp [slotsFrom]
  | cons x xs ih =>
    have hn : k + 1 + xs.length = k + (xs.length + 1) := by omega
    have h1 : slotsFrom k ((x :: xs) ++ [N]) =
        (x, k) :: slotsFrom (k + 1) (xs ++ [N]) := rfl
    have h2 : slotsFrom k (x :: xs) = (x, k) :: slotsFrom (k + 1) xs := rfl
    rw [h1, h2, ih (k + 1), List.length_cons, hn]
    rfl

lemma slotOf_append (u v : List (List Char × Nat)) (N : List Char) :
    slotOf (u ++ v) N =
      match slotOf u N with
      | some n => some n
      | none => slotOf v N := by
  induction u with
  | nil => simp [slotOf]
  | cons kv u ih =>
    rcases kv with ⟨a, b⟩
    by_cases h : a = N <;> simp [slotOf, h, ih]

lemma slotOf_slotsFrom_of_not_mem {l : List (List Char)} {N : List Char}
    (h : N ∉ l) (k : Nat) : slotOf (slotsFrom k l) N = none := by
  induction l generalizing k with
  | nil => rfl
  | cons p ps ih =>
    have hp : p ≠ N := fun e => h (e ▸ List.mem_cons_self p ps)
    have hps : N ∉ ps := fun e => h (List.mem_cons_of_mem _ e)
    simp [slotsFrom, slotOf, hp, ih hps]

lemma slotOf_slotsFrom_some {l : List (List Char)} {N : List Char} {k n : Nat}
    (h : slotOf (slotsFrom k l) N = some n) :
    ∃ i, ∃ hi : i < l.length, l.get ⟨i, hi⟩ = N ∧ n = k + i := by
  induction l generalizing k with
  | nil => exact absurd h (by simp [slotsFrom, slotOf])
  | cons p ps ih =>
    by_cases hp : p = N
    · refine ⟨0, by simp, hp, ?_⟩
      simp [slotsFrom, slotOf, hp] at h
      omega
    · simp only [slotsFrom, slotOf, hp, if_false] at h
      obtain ⟨i, hi, hget, hn⟩ := ih h
      exact ⟨i + 1, by simpa using Nat.succ_lt_succ hi, by simpa using hget, by omega⟩

lemma slotOf_slotsFrom_of_mem {l : List (List Char)} {N : List Char}
    (h : N ∈ l) (k : Nat) : ∃ n, slotOf (slotsFrom k l) N = some n := by
  induction l generalizing k with
  | nil => exact absurd h (List.not_mem_nil N)
  | cons p ps ih =>
    by_cases hp : p = N
    · exact ⟨k, by simp [slotsFrom, slotOf, hp]⟩
    · have : N ∈ ps := by
        rcases List.mem_cons.mp h with h' | h'
        · exact absurd h'.symm hp
        · exact h'
      obtain ⟨n, hn⟩ := ih this (k + 1)
      exact ⟨n, by simp [slotsFrom, slotOf, hp, hn]⟩

lemma filter_length_one {l : List (List Char)} {f : List Char → List Char}
    {N : List Char} (hd : (l.map f).Nodup) (hm : N ∈ l.map f) :
    (l.filter (fun p => f p == N)).length = 1 := by
  induction l with
  | nil => exact absurd hm (List.not_mem_nil N)
  | cons a l ih =>
    simp only [List.map_cons, List.nodup_cons] at hd
    by_cases ha : f a = N
    · have hnil : l.filter (fun p => f p == N) = [] := by
        rw [List.filter_eq_nil_iff]
        intro b hb
        simp only [beq_iff_eq]
        intro hfb
        exact hd.1 (by rw [← ha] at hfb; exact (List.mem_map.mpr ⟨b, hb, hfb⟩))
      simp [List.filter_cons, ha, hnil]
    · have hm' : N ∈ l.map f := by
        rcases List.mem_cons.mp hm with h' | h'
        · exact absurd h'.symm ha
        · exact h'
      simp [List.filter_cons, ha, ih hd.2 hm']

lemma importStatementFor_ne_nil (i : Nat) (p : List Char) :
    importStatementFor i p ≠ [] := by
  unfold importStatementFor
  apply List.append_ne_nil_of_left_ne_nil
  apply List.append_ne_nil_of_left_ne_nil
  apply List.append_ne_nil_of_left_ne_nil
  apply List.append_ne_nil_of_left_ne_nil
  decide

lemma foldl_statements (el : List (Nat × List Char)) (a : List Char) (ha : a ≠ []) :
    el.foldl
      (fun accum ip =>
        (if accum ≠ [] then accum ++ ['\n'] else accum) ++
          importStatementFor ip.1 ip.2) a =
      a ++ (el.map (fun ip => '\n' :: importStatementFor ip.1 ip.2)).flatten := by
  induction el generalizing a with
  | nil => simp
  | cons e el ih =>
    have hne : a ++ ['\n'] ++ importStatementFor e.1 e.2 ≠ [] := by
      apply List.append_ne_nil_of_left_ne_nil
      exact List.append_ne_nil_of_left_ne_nil ha _
    simp only [List.foldl_cons, if_pos ha, ih _ hne, List.map_cons, List.flatten_cons]
    simp [List.append_assoc]

lemma importStatements_eq (l : List (List Char)) :
    importStatements l = joinLines (statementList l) := by
  unfold importStatements statementList
  cases h : l.enum with
  | nil => simp [joinLines]
  | cons e el =>
    simp only [List.foldl_cons]
    have h0 : (if ([] : List Char) ≠ [] then ([] : List Char) ++ ['\n'] else []) ++
        importStatementFor e.1 e.2 = importStatementFor e.1 e.2 := by simp
    rw [h0, foldl_statements el _ (importStatementFor_ne_nil e.1 e.2)]
    simp only [List.map_cons, joinLines, List.map_map]
    rfl

lemma replaceLastCharWith_concat (repl l : List Char) (c : Char) (h : c ≠ '\n') :
    replaceLastCharWith repl (l ++ [c]) = l ++ repl := by
  unfold replaceLastCharWith
  rw [List.getLast?_concat]
  simp [h, List.dropLast_concat]

lemma entryChunk_concat (kv : List Char × List Char) :
    entryChunk kv = ('\x27' :: kv.1 ++ '\x27' :: ':' :: kv.2) ++ [','] := by
  simp [entryChunk, List.append_assoc]

lemma entryChunk_ne_nil (kv : List Char × List Char) : entryChunk kv ≠ [] := by
  rw [entryChunk_concat]
  exact fun h => by simpa using congrArg List.length h

lemma foldl_entries (m : List (List Char × List Char)) (a : List Char) :
    m.foldl (fun acc kv => acc ++ entryChunk kv) a = a ++ (m.map entryChunk).flatten := by
  induction m generalizing a with
  | nil => simp
  | cons kv m ih => simp [ih, List.append_assoc]

lemma entries_flatten_ne_nil (m : List (List Char × List Char)) (h : m ≠ []) :
    (m.map entryChunk).flatten ≠ [] := by
  cases m with
  | nil => exact absurd rfl h
  | cons kv m =>
    simp only [List.map_cons, List.flatten_cons]
    exact List.append_ne_nil_of_left_ne_nil (entryChunk_ne_nil kv) _

lemma entries_flatten_getLast (m : List (List Char × List Char)) (h : m ≠ []) :
    ((m.map entryChunk).flatten).getLast? = some ',' := by
  induction m with
  | nil => exact absurd rfl h
  | cons kv m ih =>
    cases m with
    | nil =>
      rw [List.map_cons, List.map_nil, List.flatten_cons, List.flatten_nil,
        List.append_nil, entryChunk_concat, List.getLast?_concat]
    | cons kv' m' =>
      simp only [List.map_cons, List.flatten_cons]
      rw [List.getLast?_append_of_ne_nil _
        (List.append_ne_nil_of_left_ne_nil (entryChunk_ne_nil kv') _)]
      have := ih (by simp)
      simpa using this

lemma objectMapString_eq (m : List (List Char × List Char)) (h : m ≠ []) :
    objectMapString m =
      "const _DynamicImportModuleMap = \x7b".data ++
        ((m.map entryChunk).flatten).dropLast ++ "\x7d;".data := by
  have hlast : ((m.map entryChunk).flatten).getLast? = some ',' :=
    entries_flatten_getLast m h
  have hsplit : ((m.map entryChunk).flatten).dropLast ++ [','] =
      (m.map entryChunk).flatten :=
    List.dropLast_append_getLast? ',' (by simp [hlast])
  have hs : "const _DynamicImportModuleMap = \x7b".data ++
      List.foldl (fun acc kv => acc ++ entryChunk kv) [] m =
      ("const _DynamicImportModuleMap = \x7b".data ++
        ((m.map entryChunk).flatten).dropLast) ++ [','] := by
    rw [foldl_entries]
    conv_lhs => rw [← hsplit]
    simp [List.append_assoc]
  unfold objectMapString
  rw [hs, replaceLastCharWith_concat _ _ ',' (by decide)]

lemma inv_step {dir : List Char} {seen : List (List Char)} {st : DedupState}
    {p : List Char} (h : Inv dir seen st) :
    Inv dir (seen ++ [p]) (dedupStep dir st p) := by
  obtain ⟨h1, h2, h3, h4⟩ := h
  simp only [dedupStep]
  cases hslot : slotOf st.uniq (normRel dir p) with
  | some n =>
    have hmem : normRel dir p ∈ st.deduped.map (normRel dir) := by
      rw [h1] at hslot
      obtain ⟨i, hi, hget, _⟩ := slotOf_slotsFrom_some hslot
      exact hget ▸ List.get_mem _ i hi
    refine ⟨h1, h2, ?_, ?_⟩
    · intro N
      simp only [List.map_append, List.map_cons, List.map_nil, List.mem_append,
        List.mem_singleton]
      constructor
      · intro hN
        exact Or.inl ((h3 N).mp hN)
      · rintro (hN | hN)
        · exact (h3 N).mpr hN
        · exact hN ▸ hmem
    · intro q hq
      rcases List.mem_append.mp hq with hq | hq
      · obtain ⟨n', hn', hm⟩ := h4 q hq
        refine ⟨n', hn', ?_⟩
        rw [mapGet_mapSet]
        by_cases hpq : p = q
        · subst hpq
          have hnn : n = n' := Option.some_inj.mp (hslot.symm.trans hn')
          simp [hnn]
        · rw [if_neg hpq]
          exact hm
      · have hq' : q = p := List.mem_singleton.mp hq
        subst hq'
        refine ⟨n, hslot, ?_⟩
        rw [mapGet_mapSet]
        simp
  | none =>
    have hnotmem : normRel dir p ∉ st.deduped.map (normRel dir) := by
      intro hmem
      obtain ⟨n, hn⟩ := slotOf_slotsFrom_of_mem hmem 0
      rw [h1, hn] at hslot
      exact Option.noConfusion hslot
    have hlen : st.uniq.length = (st.deduped.map (normRel dir)).length := by
      rw [h1, slotsFrom_length]
    refine ⟨?_, ?_, ?_, ?_⟩
    · show st.uniq ++ [(normRel dir p, st.uniq.length)] = _
      rw [List.map_append, List.map_cons, List.map_nil, slotsFrom_append, h1]
      simp [slotsFrom_length]
    · show ((st.deduped ++ [p]).map (normRel dir)).Nodup
      rw [List.map_append, List.map_cons, List.map_nil]
      exact List.Nodup.append h2 (List.nodup_singleton _)
        (List.disjoint_singleton.mpr hnotmem)
    · intro N
      show N ∈ (st.deduped ++ [p]).map (normRel dir) ↔ _
      simp only [List.map_append, List.map_cons, List.map_nil, List.mem_append,
        List.mem_singleton]
      exact or_congr (h3 N) Iff.rfl
    · intro q hq
      rcases List.mem_append.mp hq with hq | hq
      · obtain ⟨n', hn', hm⟩ := h4 q hq
        have hq_ne : p ≠ q := by
          intro e
          rw [e, hn'] at hslot
          exact Option.noConfusion hslot
        refine ⟨n', ?_, ?_⟩
        · show slotOf (st.uniq ++ [(normRel dir p, st.uniq.length)]) (normRel dir q) = some n'
          rw [slotOf_append, hn']
        · show mapGet (mapSet st.modMap p (moduleIdent st.uniq.length)) q = _
          rw [mapGet_mapSet, if_neg hq_ne]
          exact hm
      · have hq' : q = p := List.mem_singleton.mp hq
        subst hq'
        refine ⟨st.uniq.length, ?_, ?_⟩
        · show slotOf (st.uniq ++ [(normRel dir q, st.uniq.length)]) (normRel dir q) = _
          rw [slotOf_append, hslot]
          simp [slotOf]
        · show mapGet (mapSet st.modMap q (moduleIdent st.uniq.length)) q = _
          rw [mapGet_mapSet]
          simp

lemma inv_foldl {dir : List Char} (l : List (List Char)) {seen : List (List Char)}
    {st : DedupState} (h : Inv dir seen st) :
    Inv dir (seen ++ l) (l.foldl (dedupStep dir) st) := by
  induction l generalizing seen st with
  | nil => simpa using h
  | cons p ps ih =>
    have h' : Inv dir (seen ++ [p]) (dedupStep dir st p) := inv_step h
    have := ih h'
    simpa [List.append_assoc] using this

lemma dedupAll_inv (dir : List Char) (paths : List (List Char)) :
    Inv dir paths (dedupAll dir paths) := by
  have h0 : Inv dir [] { uniq := [], modMap := [], deduped := [] } := by
    refine ⟨rfl, List.nodup_nil, ?_, ?_⟩
    · intro N
      simp
    · intro q hq
      exact absurd hq (List.not_mem_nil q)
  have := inv_foldl paths h0
  simpa [dedupAll] using this

lemma dedupAll_mapGet {dir : List Char} {paths : List (List Char)} {p : List Char}
    (hp : p ∈ paths) :
    ∃ n, ∃ hn : n < (dedupAll dir paths).deduped.length,
      mapGet (dedupAll dir paths).modMap p = some (moduleIdent n) ∧
      normRel dir ((dedupAll dir paths).deduped.get ⟨n, hn⟩) = normRel dir p := by
  obtain ⟨h1, h2, h3, h4⟩ := dedupAll_inv dir paths
  obtain ⟨n, hslot, hmap⟩ := h4 p hp
  rw [h1] at hslot
  obtain ⟨i, hi, hget, hn⟩ := slotOf_slotsFrom_some hslot
  have hin : i = n := by omega
  subst hin
  have hlen : i < (dedupAll dir paths).deduped.length := by
    simpa using hi
  refine ⟨i, hlen, hmap, ?_⟩
  rw [← hget, List.get_map]

lemma dedupAll_filter_one {dir : List Char} {paths : List (List Char)}
    {N : List Char} (hN : N ∈ paths.map (normRel dir)) :
    ((dedupAll dir paths).deduped.filter (fun q => normRel dir q == N)).length = 1 := by
  obtain ⟨h1, h2, h3, h4⟩ := dedupAll_inv dir paths
  exact filter_length_one h2 ((h3 N).mpr hN)

lemma mapGet_some_ne_nil {m : List (List Char × List Char)} {p v : List Char}
    (h : mapGet m p = some v) : m ≠ [] := by
  intro hm
  subst hm
  exact Option.noConfusion h

lemma loop_queued_origin (config : DynamicImportConfig) (resolveDir : List Char)
    (ms : List ImportMatch) (st : LoopState) :
    ∀ q ∈ (ms.foldl (loopStep config resolveDir) st).queued,
      q ∈ st.queued ∨ ∃ m ∈ ms, q.fullImport = m.full ∧
        q.pathString = '\x60' :: processArg m.arg ++ ['\x60'] := by
  induction ms generalizing st with
  | nil =>
    intro q hq
    exact Or.inl hq
  | cons m ms ih =>
    intro q hq
    rcases ih (loopStep config resolveDir st m) q hq with hq' | ⟨m', hm', hfull, hpath⟩
    · simp only [loopStep] at hq'
      split at hq'
      · exact Or.inl hq'
      · split at hq'
        · simp only [List.mem_append, List.mem_singleton] at hq'
          rcases hq' with h' | h'
          · exact Or.inl h'
          · exact Or.inr ⟨m, List.mem_cons_self m ms, by simp [h'], by simp [h']⟩
        · exact Or.inl hq'
    · exact Or.inr ⟨m', List.mem_cons_of_mem m hm', hfull, hpath⟩

lemma onLoad_hit (config : DynamicImportConfig) (resolver : Resolver)
    (st : LoaderState) (path c : List Char) (out : Output)
    (h : cacheGet st.cache path = some { fileContents := c, output := out }) :
    onLoad config resolver st path c = (st, out) := by
  simp only [onLoad]
  rw [h]
  simp

lemma onLoad_recompute_props (config : DynamicImportConfig) (resolver : Resolver)
    (st : LoaderState) (path c' : List Char) (v : CacheEntry)
    (hv : cacheGet st.cache path = some v) (hne : v.fileContents ≠ c') :
    (onLoad config resolver st path c').2.contents =
        replaceImports c' (dirname path) config resolver ∧
    cacheGet (onLoad config resolver st path c').1.cache path =
        some { fileContents := c',
               output := (onLoad config resolver st path c').2 } ∧
    (onLoad config resolver st path c').1.resolverCalls =
        st.resolverCalls + numResolverCalls c' (dirname path) config := by
  simp only [onLoad]
  rw [hv]
  simp [hne, cacheGet_cacheSet]

/-- C7: plugin construction succeeds exactly when `transformExtensions` is
a list or `changeRelativeToAbsolute` is truthy; with both missing the
factory fails synchronously, so no plugin value (and hence no load hook)
ever comes into existence. -/
theorem c7_construction_validation (config : DynamicImportConfig) :
    constructionOk (mkPlugin config) =
      (config.transformExtensions.isSome || config.changeRelativeToAbsolute) := by
  rcases config with ⟨te, cra, fil, ld⟩
  cases te <;> cases cra <;> rfl

/-- C8: a file whose text contains no `import(...)` occurrence is returned
unchanged by the rewriter, for every directory, configuration and
resolver. -/
theorem c8_no_imports_unchanged (fileContents resolveDir : List Char)
    (config : DynamicImportConfig) (resolver : Resolver)
    (h : scanImports fileContents = []) :
    replaceImports fileContents resolveDir config resolver = fileContents := by
  unfold replaceImports loopResult
  rw [h]
  simp

/-- Witness for C8: a file with no import call passes through unchanged. -/
theorem c8_witness :
    replaceImports "const x = 1;".data "/d".data cfgTransform resolverNone =
      "const x = 1;".data :=
  c8_no_imports_unchanged _ _ _ _ (by decide)

/-- C4: a match's argument is spliced to the backticked normalized path
exactly when (`changeRelativeToAbsolute` is on, the destination is not
absolute and its extension is `.js`) or the extension is `.json`;
concretely, with `changeRelativeToAbsolute` on, `import` of the quoted
path `./foo.js` in directory `/a/b` becomes a template literal of
`/a/b/foo.js` and the call remains a dynamic import. -/
theorem c4_absolutize_condition :
    (∀ (config : DynamicImportConfig) (resolveDir : List Char) (st : LoopState)
        (m : ImportMatch),
      (loopStep config resolveDir st m).text =
        (if config.changeRelativeToAbsolute && !isAbsolute (processArg m.arg) &&
            extname (processArg m.arg) == jsExt ||
            extname (processArg m.arg) == jsonExt then
          replaceFirst m.arg
            ('\x60' :: normRel resolveDir (processArg m.arg) ++ ['\x60']) st.text
        else st.text)) ∧
    (∀ resolver : Resolver,
      replaceImports "import(\x27./foo.js\x27)".data "/a/b".data cfgAbsolute resolver =
        "import(\x60/a/b/foo.js\x60)".data) := by
  constructor
  · intro config resolveDir st m
    simp only [loopStep]
    split
    · rfl
    · split <;> rfl
  · intro resolver
    rfl

/-- C3 counterexample: from the single glob result `mod-a.js`, the module
map registers the extension-less alias `mod-a`, but under a different slot
identifier than `mod-a.js` (the two spellings normalize to different
absolute paths), refuting "both spellings resolving to the same slot". -/
theorem c3_counterexample :
    mapGet (dedupAll "/d".data (addJsAliases ["mod-a.js".data])).modMap
        "mod-a.js".data = some (moduleIdent 0) ∧
    mapGet (dedupAll "/d".data (addJsAliases ["mod-a.js".data])).modMap
        "mod-a".data = some (moduleIdent 1) ∧
    moduleIdent 0 ≠ moduleIdent 1 := by
  refine ⟨by decide, by decide, by decide⟩

/-- C3 amended: the alias pass appends, for every resolved path, its
`.js`-stripped form (the filter keeps everything since its callback is
always truthy), so `.js` paths gain an extension-less alias key with a slot
of its own while `.json` paths are re-appended unchanged and gain no alias;
concretely `mod-a.js` and `data.json` produce exactly the keys `mod-a.js`,
`data.json` and `mod-a` with three distinct slots. -/
theorem c3_amended_aliases :
    (∀ paths : List (List Char),
      addJsAliases paths = paths ++ paths.map stripJsSuffix) ∧
    (dedupAll "/d".data (addJsAliases ["mod-a.js".data, "data.json".data])).modMap =
      [("mod-a.js".data, moduleIdent 0), ("data.json".data, moduleIdent 1),
       ("mod-a".data, moduleIdent 2)] := by
  constructor
  · intro paths
    unfold addJsAliases
    have hfk : paths.filter jsFilterKeep = paths := by
      rw [List.filter_eq_self]
      intro a _
      unfold jsFilterKeep
      split <;> rfl
    rw [hfk]
  · decide

/-- C9 counterexample: a `.json` import already rewritten to its absolute
form is rewritten again on a second run — the `.json` arm of the classifier
has no not-absolute guard, so the directory is prepended a second time and
the path changes. -/
theorem c9_counterexample :
    replaceImports "import(\x27./foo.json\x27)".data "/a/b".data cfgAbsolute
        resolverNone = "import(\x60/a/b/foo.json\x60)".data ∧
    replaceImports "import(\x60/a/b/foo.json\x60)".data "/a/b".data cfgAbsolute
        resolverNone = "import(\x60/a/b/a/b/foo.json\x60)".data ∧
    ("import(\x60/a/b/a/b/foo.json\x60)".data : List Char) ≠
      "import(\x60/a/b/foo.json\x60)".data :=
  ⟨rfl, rfl, by decide⟩

/-- C9 amended: absolute-path rewriting is idempotent for `.js` imports
only — a match whose processed destination is already absolute and not
`.json` leaves the text untouched, and the absolutized `.js` example is a
fixed point of the rewriter; `.json` imports are re-normalized on every
run. -/
theorem c9_amended_js_idempotent :
    (∀ (config : DynamicImportConfig) (resolveDir : List Char) (st : LoopState)
        (m : ImportMatch),
      isAbsolute (processArg m.arg) = true →
      extname (processArg m.arg) ≠ jsonExt →
      (loopStep config resolveDir st m).text = st.text) ∧
    (replaceImports "import(\x27./foo.js\x27)".data "/a/b".data cfgAbsolute
        resolverNone = "import(\x60/a/b/foo.js\x60)".data ∧
      replaceImports "import(\x60/a/b/foo.js\x60)".data "/a/b".data cfgAbsolute
        resolverNone = "import(\x60/a/b/foo.js\x60)".data) := by
  constructor
  · intro config resolveDir st m habs hjson
    simp only [loopStep]
    split
    · rename_i hc
      rw [habs] at hc
      simp [hjson] at hc
    · split <;> rfl
  · exact ⟨rfl, rfl⟩

/-- Witness for C9's amended general statement at a concrete absolutized
`.js` import match. -/
theorem c9_witness :
    (loopStep cfgAbsolute "/a/b".data
        { text := "import(\x60/x.js\x60)".data, queued := [], globPatterns := [] }
        { full := "import(\x60/x.js\x60)".data, arg := "\x60/x.js\x60".data }).text =
      "import(\x60/x.js\x60)".data :=
  c9_amended_js_idempotent.1 cfgAbsolute "/a/b".data _ _ (by decide) (by decide)

set_option maxRecDepth 40000 in
/-- C10: both text splices act on the first textual occurrence of the
spliced substring in the whole file.  In the first example the argument
text of the matched `.json` import also occurs earlier in an assignment,
and it is that earlier occurrence that is absolutized while the import call
itself is left intact.  In the second example the full text of the queued
template import also occurs earlier (inside the argument span of a
preceding, unqueued match), and the `_DynamicImport` substitution rewrites
that earlier occurrence while the matched import at the end survives
unchanged. -/
theorem c10_first_occurrence_splice :
    replaceImports "const p = \x27./a.json\x27; import(\x27./a.json\x27);".data
        "/d".data cfgAbsolute resolverNone =
      "const p = \x60/d/a.json\x60; import(\x27./a.json\x27);".data ∧
    replaceImports
        "import(bimport(\x60./m-$\x7bx\x7d.js\x60)import(\x60./m-$\x7bx\x7d.js\x60)".data
        "/d".data cfgTransform resolverA =
      ("import * as _DynamicImportModule0 from \x27m-a.js\x27;\n" ++
       "import * as _DynamicImportModule1 from \x27m-a\x27;\n" ++
       "const _DynamicImportModuleMap = \x7b\x27m-a.js\x27:_DynamicImportModule0," ++
       "\x27m-a\x27:_DynamicImportModule1\x7d;\n" ++
       "function _DynamicImport(path) \x7bconst mod=_DynamicImportModuleMap[path];" ++
       "if(mod) \x7bmod[Symbol.toStringTag]=\x27Module\x27;\x7d" ++
       "return Promise.resolve(mod);\x7d\n" ++
       "import(b_DynamicImport(\x60./m-$\x7bx\x7d.js\x60)import(\x60./m-$\x7bx\x7d.js\x60)").data :=
  ⟨rfl, rfl⟩

/-- C5 counterexample: with a resolver that fulfills every pattern with no
matches ("no paths resolve at all"), a file containing both a `.json`
call and a queued template import is NOT returned unmodified — the
`.json` argument has already been absolutized in place by the
classification loop. -/
theorem c5_counterexample :
    replaceImports
        "import(\x27./a.json\x27) import(\x60./m-$\x7bx\x7d.js\x60)".data
        "/d".data cfgTransform resolverNone =
      "import(\x60/d/a.json\x60) import(\x60./m-$\x7bx\x7d.js\x60)".data ∧
    ("import(\x60/d/a.json\x60) import(\x60./m-$\x7bx\x7d.js\x60)".data : List Char) ≠
      "import(\x27./a.json\x27) import(\x60./m-$\x7bx\x7d.js\x60)".data :=
  ⟨rfl, by decide⟩

/-- C5 amended: a rejection of any one pattern rejects the `Promise.all`
join, is caught, only logged, and leaves the result equal to the
classification loop's text (no module map injected); likewise whenever the
resolved path list is empty after aliasing the loop's text is returned. -/
theorem c5_amended_degrade (fileContents resolveDir : List Char)
    (config : DynamicImportConfig) (resolver : Resolver) :
    (∀ e, resolveAll resolver resolveDir
        (loopResult fileContents resolveDir config).globPatterns = Except.error e →
      replaceImports fileContents resolveDir config resolver =
        (loopResult fileContents resolveDir config).text ∧
      replaceImportsLog fileContents resolveDir config resolver = [e]) ∧
    (∀ l, resolveAll resolver resolveDir
        (loopResult fileContents resolveDir config).globPatterns = Except.ok l →
      addJsAliases l = [] →
      replaceImports fileContents resolveDir config resolver =
        (loopResult fileContents resolveDir config).text) := by
  constructor
  · intro e he
    have hpat : (loopResult fileContents resolveDir config).globPatterns ≠ [] := by
      intro h0
      rw [h0] at he
      simp [resolveAll] at he
    have hlen : (loopResult fileContents resolveDir config).globPatterns.length > 0 :=
      List.length_pos.mpr hpat
    constructor
    · simp only [replaceImports]
      rw [if_pos hlen, he]
      simp [addJsAliases]
    · simp only [replaceImportsLog]
      rw [if_pos hlen, he]
  · intro l hl hempty
    by_cases h0 : (loopResult fileContents resolveDir config).globPatterns.length > 0
    · simp only [replaceImports]
      rw [if_pos h0, hl, hempty]
      simp [addJsAliases]
    · simp only [replaceImports]
      rw [if_neg h0]

/-- Witness for C5's amended statement: a rejecting resolver on a file with
a queued template import yields the loop text and logs the rejection. -/
theorem c5_witness :
    replaceImports "import(\x60./m-$\x7bx\x7d.js\x60)".data "/d".data cfgTransform
        resolverReject =
      (loopResult "import(\x60./m-$\x7bx\x7d.js\x60)".data "/d".data cfgTransform).text ∧
    replaceImportsLog "import(\x60./m-$\x7bx\x7d.js\x60)".data "/d".data cfgTransform
        resolverReject = ["glob failure".data] :=
  (c5_amended_degrade _ _ _ _).1 "glob failure".data rfl

/-- C2: two distinct spellings among the resolved paths that normalize to
the same absolute file share one slot — both module-map keys point at the
same slot identifier, that slot's deduplicated spelling normalizes to the
same file, and exactly one deduplicated entry (hence exactly one
static-import statement) exists for that file. -/
theorem c2_dedup_two_spellings (dir : List Char) (paths : List (List Char))
    (a b : List Char) (ha : a ∈ paths) (hb : b ∈ paths) (_hab : a ≠ b)
    (hnorm : normRel dir a = normRel dir b) :
    ∃ n, ∃ hn : n < (dedupAll dir paths).deduped.length,
      mapGet (dedupAll dir paths).modMap a = some (moduleIdent n) ∧
      mapGet (dedupAll dir paths).modMap b = some (moduleIdent n) ∧
      normRel dir ((dedupAll dir paths).deduped.get ⟨n, hn⟩) = normRel dir a ∧
      ((dedupAll dir paths).deduped.filter
        (fun q => normRel dir q == normRel dir a)).length = 1 := by
  obtain ⟨h1, h2, h3, h4⟩ := dedupAll_inv dir paths
  obtain ⟨n, hna, hma⟩ := h4 a ha
  obtain ⟨n', hnb, hmb⟩ := h4 b hb
  rw [← hnorm] at hnb
  have heq : n = n' := Option.some_inj.mp (hna.symm.trans hnb)
  subst heq
  rw [h1] at hna
  obtain ⟨i, hi, hget, hzero⟩ := slotOf_slotsFrom_some hna
  have hin : i = n := by omega
  subst hin
  have hlen : i < (dedupAll dir paths).deduped.length := by simpa using hi
  refine ⟨i, hlen, hma, hmb, ?_, ?_⟩
  · rw [← hget, List.get_map]
  · exact dedupAll_filter_one (List.mem_map.mpr ⟨a, ha, rfl⟩)

/-- Witness for C2: the spellings `./x.js` and `x.js` both normalize to
`/d/x.js` and share one slot. -/
theorem c2_witness :
    ∃ n, ∃ hn : n <
        (dedupAll "/d".data ["./x.js".data, "x.js".data]).deduped.length,
      mapGet (dedupAll "/d".data ["./x.js".data, "x.js".data]).modMap
          "./x.js".data = some (moduleIdent n) ∧
      mapGet (dedupAll "/d".data ["./x.js".data, "x.js".data]).modMap
          "x.js".data = some (moduleIdent n) ∧
      normRel "/d".data
          ((dedupAll "/d".data ["./x.js".data, "x.js".data]).deduped.get ⟨n, hn⟩) =
        normRel "/d".data "./x.js".data ∧
      ((dedupAll "/d".data ["./x.js".data, "x.js".data]).deduped.filter
        (fun q => normRel "/d".data q == normRel "/d".data "./x.js".data)).length = 1 :=
  c2_dedup_two_spellings "/d".data ["./x.js".data, "x.js".data]
    "./x.js".data "x.js".data (by decide) (by decide) (by decide) (by decide)

/-- C1: when at least one import was queued and glob resolution fulfills
with a nonempty (aliased) path list, the rewriter's output is the
newline-joined static import statements (statement `i` binding
`_DynamicImportModule i` to the `i`-th deduplicated spelling, in first-seen
order), then the `_DynamicImportModuleMap` object literal, then the
`_DynamicImport` function, prepended to the text in which each queued
original `import(...)` has been replaced by a `_DynamicImport` call whose
argument is the backtick-wrapped processed template path of that very
match — the same template-literal expression whenever the original argument
is a clean template literal; every spelling's map entry points at the
identifier of the slot holding its normalized file. -/
theorem c1_emission (fileContents resolveDir : List Char)
    (config : DynamicImportConfig) (resolver : Resolver) (ps : List (List Char))
    (hres : resolveAll resolver resolveDir
        (loopResult fileContents resolveDir config).globPatterns = Except.ok ps)
    (hpat : (loopResult fileContents resolveDir config).globPatterns ≠ [])
    (hne : addJsAliases ps ≠ []) :
    replaceImports fileContents resolveDir config resolver =
      joinLines (statementList (dedupAll resolveDir (addJsAliases ps)).deduped) ++
        '\n' :: objectMapString (dedupAll resolveDir (addJsAliases ps)).modMap ++
        '\n' :: importFunctionString ++
        '\n' :: spliceQueued (loopResult fileContents resolveDir config).queued
          (loopResult fileContents resolveDir config).text ∧
    objectMapString (dedupAll resolveDir (addJsAliases ps)).modMap =
      "const _DynamicImportModuleMap = \x7b".data ++
        (((dedupAll resolveDir (addJsAliases ps)).modMap.map entryChunk).flatten).dropLast ++
        "\x7d;".data ∧
    (∀ p ∈ addJsAliases ps,
      ∃ n, ∃ hn : n < (dedupAll resolveDir (addJsAliases ps)).deduped.length,
        mapGet (dedupAll resolveDir (addJsAliases ps)).modMap p =
          some (moduleIdent n) ∧
        normRel resolveDir
            ((dedupAll resolveDir (addJsAliases ps)).deduped.get ⟨n, hn⟩) =
          normRel resolveDir p) ∧
    (∀ q ∈ (loopResult fileContents resolveDir config).queued,
      ∃ m ∈ scanImports fileContents, q.fullImport = m.full ∧
        q.pathString = '\x60' :: processArg m.arg ++ ['\x60']) := by
  have hlen : (loopResult fileContents resolveDir config).globPatterns.length > 0 :=
    List.length_pos.mpr hpat
  have hmap_ne : (dedupAll resolveDir (addJsAliases ps)).modMap ≠ [] := by
    obtain ⟨p, hp⟩ := List.exists_mem_of_ne_nil _ hne
    obtain ⟨n, hn, hm, _⟩ := @dedupAll_mapGet resolveDir (addJsAliases ps) p hp
    exact mapGet_some_ne_nil hm
  refine ⟨?_, objectMapString_eq _ hmap_ne, fun p hp => dedupAll_mapGet hp, ?_⟩
  · simp only [replaceImports]
    rw [if_pos hlen, hres]
    have hne' : ¬((addJsAliases ps).length = 0) := by
      simpa [List.length_eq_zero] using hne
    rw [if_neg hne', importStatements_eq]
    simp [List.append_assoc]
  · simp only [loopResult]
    intro q hq
    rcases loop_queued_origin config resolveDir (scanImports fileContents) _ q hq with
      h0 | hm
    · exact absurd h0 (List.not_mem_nil q)
    · exact hm

/-- Witness for C1 at the specification's worked example: one templated
call, glob resolution fulfilling with `mod-a.js` and `mod-b.js`. -/
theorem c1_witness :
    replaceImports exampleText "/d".data cfgTransform resolverAB =
      joinLines (statementList (dedupAll "/d".data
          (addJsAliases ["mod-a.js".data, "mod-b.js".data])).deduped) ++
        '\n' :: objectMapString (dedupAll "/d".data
          (addJsAliases ["mod-a.js".data, "mod-b.js".data])).modMap ++
        '\n' :: importFunctionString ++
        '\n' :: spliceQueued (loopResult exampleText "/d".data cfgTransform).queued
          (loopResult exampleText "/d".data cfgTransform).text :=
  (c1_emission exampleText "/d".data cfgTransform resolverAB
    ["mod-a.js".data, "mod-b.js".data] rfl (by decide) (by decide)).1

/-- C6: a second load of the same path with byte-identical content returns
the cached output and leaves the loader state (cache and resolver-call
counter) unchanged — the rewrite is not re-run and the glob resolver is not
re-invoked; a load with different content recomputes the rewrite,
overwrites the path's cache entry, and performs the recomputation's
resolver invocations. -/
theorem c6_cache_busting (config : DynamicImportConfig) (resolver : Resolver)
    (st : LoaderState) (path c c' : List Char) :
    onLoad config resolver (onLoad config resolver st path c).1 path c =
      onLoad config resolver st path c ∧
    (c' ≠ c →
      (onLoad config resolver (onLoad config resolver st path c).1 path c').2.contents =
        replaceImports c' (dirname path) config resolver ∧
      cacheGet (onLoad config resolver
          (onLoad config resolver st path c).1 path c').1.cache path =
        some { fileContents := c',
               output := (onLoad config resolver
                 (onLoad config resolver st path c).1 path c').2 } ∧
      (onLoad config resolver
          (onLoad config resolver st path c).1 path c').1.resolverCalls =
        (onLoad config resolver st path c).1.resolverCalls +
          numResolverCalls c' (dirname path) config) := by
  have hkey : cacheGet (onLoad config resolver st path c).1.cache path =
      some { fileContents := c, output := (onLoad config resolver st path c).2 } := by
    simp only [onLoad]
    cases hv : cacheGet st.cache path with
    | none => simp [cacheGet_cacheSet]
    | some v =>
      by_cases hc : v.fileContents = c
      · rcases v with ⟨vf, vo⟩
        simp_all
      · simp [hc, cacheGet_cacheSet]
  constructor
  · rw [onLoad_hit config resolver _ path c _ hkey]
  · intro hcc
    exact onLoad_recompute_props config resolver _ path c' _ hkey (Ne.symm hcc)

/-- Witness for C6: a changed content on the second load recomputes and
overwrites the cache entry. -/
theorem c6_witness :
    (onLoad cfgAbsolute resolverNone
        (onLoad cfgAbsolute resolverNone { cache := [], resolverCalls := 0 }
          "/a/b.js".data "x".data).1 "/a/b.js".data "y".data).2.contents =
      replaceImports "y".data (dirname "/a/b.js".data) cfgAbsolute resolverNone ∧
    cacheGet (onLoad cfgAbsolute resolverNone
        (onLoad cfgAbsolute resolverNone { cache := [], resolverCalls := 0 }
          "/a/b.js".data "x".data).1 "/a/b.js".data "y".data).1.cache "/a/b.js".data =
      some { fileContents := "y".data,
             output := (onLoad cfgAbsolute resolverNone
               (onLoad cfgAbsolute resolverNone { cache := [], resolverCalls := 0 }
                 "/a/b.js".data "x".data).1 "/a/b.js".data "y".data).2 } ∧
    (onLoad cfgAbsolute resolverNone
        (onLoad cfgAbsolute resolverNone { cache := [], resolverCalls := 0 }
          "/a/b.js".data "x".data).1 "/a/b.js".data "y".data).1.resolverCalls =
      (onLoad cfgAbsolute resolverNone { cache := [], resolverCalls := 0 }
          "/a/b.js".data "x".data).1.resolverCalls +
        numResolverCalls "y".data (dirname "/a/b.js".data) cfgAbsolute :=
  (c6_cache_busting cfgAbsolute resolverNone { cache := [], resolverCalls := 0 }
    "/a/b.js".data "x".data "y".data).2 (by decide)


end DynImp
